import Mathlib

/-
Verification of the blocking dequeue (the linked-list variant with the two
condition variables `itemAdded` / `itemRemoved` and public `OnFull` / `OnEmpty`
callback fields) against its natural-language specification.

The Go structure `BlockingDequeue[T]` holds a doubly linked list of elements,
an `int` capacity (0 = unbounded) and two optional callbacks.  Operations are
modelled sequentially and atomically: a call that would block (push while
full, pop or peek while empty) is rendered as `none`.  Each operation returns,
next to the new state, an `Effects` record transcribing the observable side
actions of the Go body: how many times each callback was invoked and which
signal/broadcast actions were performed on which condition variable.  The
locks an operation acquires are transcribed into per-operation lock lists.
-/

/-- The two `sync.Cond` condition variables of the Go structure. -/
inductive CondVar where
  | itemAdded
  | itemRemoved
deriving DecidableEq, Repr

/-- A wake action performed on a condition variable: `Signal` wakes one
waiter, `Broadcast` wakes all of them. -/
inductive Wake where
  | signal (c : CondVar)
  | broadcast (c : CondVar)
deriving DecidableEq, Repr

/-- Observable side actions of one operation: number of `OnFull` calls,
number of `OnEmpty` calls, and the wake actions performed, in order. -/
structure Effects where
  onFullCalls : Nat
  onEmptyCalls : Nat
  wakes : List Wake
deriving DecidableEq, Repr

/-- The empty side-action record (error paths return before doing anything). -/
def noEffects : Effects := ⟨0, 0, []⟩

/-- State of `BlockingDequeue[T]`: the element list (front = head of the Lean
list, back = last), the `int` capacity, and whether each of the `OnFull` /
`OnEmpty` callback fields is non-nil. -/
structure Dequeue (T : Type) where
  list : List T
  capacity : Int
  onFull : Bool
  onEmpty : Bool
deriving DecidableEq, Repr

/-- `NewBlockingDequeue`: fresh empty list, zero capacity, no callbacks. -/
def NewBlockingDequeue (T : Type) : Dequeue T := ⟨[], 0, false, false⟩

/-- Go `isEmpty_unsafe`: `d.list.Len() == 0`. -/
def Dequeue.isEmptyRaw {T : Type} (d : Dequeue T) : Bool :=
  d.list.length == 0

/-- Go `isFull_unsafe`: `d.capacity > 0 && d.list.Len() == d.capacity`. -/
def Dequeue.isFullRaw {T : Type} (d : Dequeue T) : Bool :=
  decide (0 < d.capacity) && ((d.list.length : Int) == d.capacity)

/-- Go `PushFront`: waits on `itemRemoved` while full (modelled as `none`);
otherwise inserts at the front, invokes `OnFull` if the dequeue just became
full and the callback is set, then signals `itemAdded`. -/
def Dequeue.PushFront {T : Type} (d : Dequeue T) (item : T) :
    Option (Dequeue T × Effects) :=
  if d.isFullRaw then none
  else
    let d1 : Dequeue T := { d with list := item :: d.list }
    some (d1, ⟨if d1.isFullRaw && d1.onFull then 1 else 0, 0,
               [Wake.signal CondVar.itemAdded]⟩)

/-- Go `PushBack`: waits on `itemRemoved` while full (modelled as `none`);
otherwise appends at the back, invokes `OnFull` if the dequeue just became
full and the callback is set, then signals `itemAdded`. -/
def Dequeue.PushBack {T : Type} (d : Dequeue T) (item : T) :
    Option (Dequeue T × Effects) :=
  if d.isFullRaw then none
  else
    let d1 : Dequeue T := { d with list := d.list ++ [item] }
    some (d1, ⟨if d1.isFullRaw && d1.onFull then 1 else 0, 0,
               [Wake.signal CondVar.itemAdded]⟩)

/-- Go `PopFront`: waits on `itemAdded` while empty (modelled as `none`);
otherwise removes and returns the front element, invokes `OnEmpty` if the
dequeue just became empty and the callback is set, and signals
`itemRemoved`. -/
def Dequeue.PopFront {T : Type} (d : Dequeue T) :
    Option (T × Dequeue T × Effects) :=
  match d.list with
  | [] => none
  | x :: rest =>
    let d1 : Dequeue T := { d with list := rest }
    some (x, d1, ⟨0, if d1.isEmptyRaw && d1.onEmpty then 1 else 0,
                  [Wake.signal CondVar.itemRemoved]⟩)

/-- Go `PopBack`: waits on `itemAdded` while empty (modelled as `none`);
otherwise removes and returns the back element, invokes `OnEmpty` if the
dequeue just became empty and the callback is set, and signals
`itemRemoved`. -/
def Dequeue.PopBack {T : Type} (d : Dequeue T) :
    Option (T × Dequeue T × Effects) :=
  match d.list.getLast? with
  | none => none
  | some item =>
    let d1 : Dequeue T := { d with list := d.list.dropLast }
    some (item, d1, ⟨0, if d1.isEmptyRaw && d1.onEmpty then 1 else 0,
                     [Wake.signal CondVar.itemRemoved]⟩)

/-- Go `PeekFront`: waits on `itemAdded` while empty (modelled as `none`);
otherwise returns `d.list.Front().Value` without mutating anything, without
invoking any callback and without any signal. -/
def Dequeue.PeekFront {T : Type} (d : Dequeue T) :
    Option (T × Dequeue T × Effects) :=
  match d.list with
  | [] => none
  | x :: _ => some (x, d, noEffects)

/-- Go `PeekBack`: waits on `itemAdded` while empty (modelled as `none`);
otherwise returns `d.list.Back().Value` without mutating anything, without
invoking any callback and without any signal. -/
def Dequeue.PeekBack {T : Type} (d : Dequeue T) :
    Option (T × Dequeue T × Effects) :=
  match d.list.getLast? with
  | none => none
  | some x => some (x, d, noEffects)

/-- The error values `SetCapacity` can return. -/
inductive CapacityError where
  | invalidCapacity
  | capacityBelowSize
deriving DecidableEq, Repr

/-- Result of `SetCapacity`: post state, the error (if any), side actions. -/
structure SetCapacityResult (T : Type) where
  dequeue : Dequeue T
  error : Option CapacityError
  effects : Effects
deriving DecidableEq, Repr

/-- Go `SetCapacity`: rejects `capacity < 0`, then (holding both locks)
rejects `capacity > 0 && capacity < d.list.Len()`; otherwise stores the new
capacity and broadcasts on `itemRemoved`.  On either error it returns before
mutating anything. -/
def Dequeue.SetCapacity {T : Type} (d : Dequeue T) (capacity : Int) :
    SetCapacityResult T :=
  if capacity < 0 then
    ⟨d, some CapacityError.invalidCapacity, noEffects⟩
  else if 0 < capacity ∧ capacity < (d.list.length : Int) then
    ⟨d, some CapacityError.capacityBelowSize, noEffects⟩
  else
    ⟨{ d with capacity := capacity }, none,
     ⟨0, 0, [Wake.broadcast CondVar.itemRemoved]⟩⟩

/-- Go `Capacity`: returns `d.capacity` directly. -/
def Dequeue.Capacity {T : Type} (d : Dequeue T) : Int := d.capacity

/-- Go `Size`: returns `d.list.Len()` (under both locks). -/
def Dequeue.Size {T : Type} (d : Dequeue T) : Nat := d.list.length

/-- Go `IsEmpty` (under both locks). -/
def Dequeue.IsEmpty {T : Type} (d : Dequeue T) : Bool := d.isEmptyRaw

/-- Go `IsFull` (under both locks). -/
def Dequeue.IsFull {T : Type} (d : Dequeue T) : Bool := d.isFullRaw

/-- Locks taken by `acquireWriteLocks`: `itemAdded.L` then `itemRemoved.L`. -/
def acquireWriteLocksLocks : List CondVar :=
  [CondVar.itemAdded, CondVar.itemRemoved]

/-- Locks `PushFront` acquires, in order (`itemRemoved.L`, `itemAdded.L`). -/
def pushFrontLocks : List CondVar := [CondVar.itemRemoved, CondVar.itemAdded]

/-- Locks `PushBack` acquires, in order (`itemRemoved.L`, `itemAdded.L`). -/
def pushBackLocks : List CondVar := [CondVar.itemRemoved, CondVar.itemAdded]

/-- Locks `PopFront` acquires, in order (`itemAdded.L`, `itemRemoved.L`). -/
def popFrontLocks : List CondVar := [CondVar.itemAdded, CondVar.itemRemoved]

/-- Locks `PopBack` acquires, in order (`itemAdded.L`, `itemRemoved.L`). -/
def popBackLocks : List CondVar := [CondVar.itemAdded, CondVar.itemRemoved]

/-- Locks `SetCapacity` acquires (via `acquireWriteLocks`). -/
def setCapacityLocks : List CondVar := acquireWriteLocksLocks

/-- Locks `Capacity` acquires: none — its body is `return d.capacity`. -/
def capacityLocks : List CondVar := []

/-- Locks `Size` acquires (via `acquireWriteLocks`). -/
def sizeLocks : List CondVar := acquireWriteLocksLocks

/-- Locks `IsEmpty` acquires (via `acquireWriteLocks`). -/
def isEmptyLocks : List CondVar := acquireWriteLocksLocks

/-- Locks `IsFull` acquires (via `acquireWriteLocks`). -/
def isFullLocks : List CondVar := acquireWriteLocksLocks

/-- The condition variable a blocked push waits on (`d.itemRemoved.Wait()`). -/
def pushWaitCond : CondVar := CondVar.itemRemoved

/-- One API operation, for reasoning about operation sequences. -/
inductive Op (T : Type) where
  | pushFront (item : T)
  | pushBack (item : T)
  | popFront
  | popBack
  | peekFront
  | peekBack
  | setCapacity (c : Int)

/-- State after one operation; an operation that blocks or errors leaves the
state unchanged. -/
def applyOp {T : Type} (d : Dequeue T) : Op T → Dequeue T
  | Op.pushFront x => match d.PushFront x with
    | some (d1, _) => d1
    | none => d
  | Op.pushBack x => match d.PushBack x with
    | some (d1, _) => d1
    | none => d
  | Op.popFront => match d.PopFront with
    | some (_, d1, _) => d1
    | none => d
  | Op.popBack => match d.PopBack with
    | some (_, d1, _) => d1
    | none => d
  | Op.peekFront => match d.PeekFront with
    | some (_, d1, _) => d1
    | none => d
  | Op.peekBack => match d.PeekBack with
    | some (_, d1, _) => d1
    | none => d
  | Op.setCapacity c => (d.SetCapacity c).dequeue

/-- State after a finite sequence of operations. -/
def run {T : Type} (d : Dequeue T) (ops : List (Op T)) : Dequeue T :=
  ops.foldl applyOp d

/-- The capacity invariant: capacity non-negative, and zero (unbounded) or at
least the current size. -/
def CapInv {T : Type} (d : Dequeue T) : Prop :=
  0 ≤ d.capacity ∧ (d.capacity = 0 ∨ (d.list.length : Int) ≤ d.capacity)

/-- Push all of `xs` to the back, in order, left to right. -/
def pushAllBack {T : Type} (d : Dequeue T) (xs : List T) : Dequeue T :=
  run d (xs.map Op.pushBack)

/-- Push all of `xs` to the front, in order, left to right. -/
def pushAllFront {T : Type} (d : Dequeue T) (xs : List T) : Dequeue T :=
  run d (xs.map Op.pushFront)

/-- Pop `n` values from the front, collecting them in order; stops early if
the dequeue empties. -/
def popAllFront {T : Type} (d : Dequeue T) : Nat → List T
  | 0 => []
  | n + 1 => match d.PopFront with
    | some (x, d1, _) => x :: popAllFront d1 n
    | none => []

theorem isFullRaw_false_ne {T : Type} {d : Dequeue T} (hf : d.isFullRaw = false)
    (hc : 0 < d.capacity) : (d.list.length : Int) ≠ d.capacity := by
  intro he
  simp [Dequeue.isFullRaw, hc, he] at hf

theorem capInv_applyOp {T : Type} {d : Dequeue T} (op : Op T) (h : CapInv d) :
    CapInv (applyOp d op) := by
  obtain ⟨h0, hle⟩ := h
  cases op with
  | pushFront x =>
    simp only [applyOp, Dequeue.PushFront]
    by_cases hf : d.isFullRaw = true
    · simp only [hf, if_true]
      exact ⟨h0, hle⟩
    · rw [Bool.not_eq_true] at hf
      simp only [hf, Bool.false_eq_true, if_false]
      refine ⟨h0, ?_⟩
      by_cases hc : d.capacity = 0
      · exact Or.inl hc
      · have hcpos : 0 < d.capacity := lt_of_le_of_ne h0 (Ne.symm hc)
        have hne := isFullRaw_false_ne hf hcpos
        have hlen : (d.list.length : Int) ≤ d.capacity := hle.resolve_left hc
        refine Or.inr ?_
        simp only [List.length_cons]
        push_cast
        omega
  | pushBack x =>
    simp only [applyOp, Dequeue.PushBack]
    by_cases hf : d.isFullRaw = true
    · simp only [hf, if_true]
      exact ⟨h0, hle⟩
    · rw [Bool.not_eq_true] at hf
      simp only [hf, Bool.false_eq_true, if_false]
      refine ⟨h0, ?_⟩
      by_cases hc : d.capacity = 0
      · exact Or.inl hc
      · have hcpos : 0 < d.capacity := lt_of_le_of_ne h0 (Ne.symm hc)
        have hne := isFullRaw_false_ne hf hcpos
        have hlen : (d.list.length : Int) ≤ d.capacity := hle.resolve_left hc
        refine Or.inr ?_
        simp only [List.length_append, List.length_cons, List.length_nil]
        push_cast
        omega
  | popFront =>
    simp only [applyOp, Dequeue.PopFront]
    cases hl : d.list with
    | nil => exact ⟨h0, hle⟩
    | cons x rest =>
      refine ⟨h0, ?_⟩
      rcases hle with hc | hlen
      · exact Or.inl hc
      · refine Or.inr ?_
        rw [hl] at hlen
        simp only [List.length_cons] at hlen
        push_cast at hlen ⊢
        omega
  | popBack =>
    simp only [applyOp, Dequeue.PopBack]
    cases hl : d.list.getLast? with
    | none => exact ⟨h0, hle⟩
    | some x =>
      refine ⟨h0, ?_⟩
      rcases hle with hc | hlen
      · exact Or.inl hc
      · refine Or.inr ?_
        have hd : (d.list.dropLast.length : Int) ≤ (d.list.length : Int) := by
          exact_mod_cast Nat.cast_le.mpr (List.length_dropLast d.list ▸ Nat.sub_le _ _)
        exact le_trans hd hlen
  | peekFront =>
    simp only [applyOp, Dequeue.PeekFront]
    cases d.list with
    | nil => exact ⟨h0, hle⟩
    | cons x rest => exact ⟨h0, hle⟩
  | peekBack =>
    simp only [applyOp, Dequeue.PeekBack]
    cases d.list.getLast? with
    | none => exact ⟨h0, hle⟩
    | some x => exact ⟨h0, hle⟩
  | setCapacity c =>
    simp only [applyOp, Dequeue.SetCapacity]
    by_cases hneg : c < 0
    · simp only [hneg, if_true]
      exact ⟨h0, hle⟩
    · simp only [hneg, if_false]
      by_cases hbs : 0 < c ∧ c < (d.list.length : Int)
      · simp only [hbs, if_true]
        exact ⟨h0, hle⟩
      · simp only [hbs, if_false]
        refine ⟨not_lt.mp hneg, ?_⟩
        by_cases hc : c = 0
        · exact Or.inl hc
        · refine Or.inr ?_
          have hcpos : 0 < c := lt_of_le_of_ne (not_lt.mp hneg) (Ne.symm hc)
          have : ¬ c < (d.list.length : Int) := fun hlt => hbs ⟨hcpos, hlt⟩
          exact not_lt.mp this

theorem capInv_run {T : Type} (d : Dequeue T) (ops : List (Op T)) (h : CapInv d) :
    CapInv (run d ops) := by
  induction ops generalizing d with
  | nil => exact h
  | cons op rest ih => exact ih _ (capInv_applyOp op h)

/-- C1: starting from a newly created dequeue, after every finite sequence of
PushFront, PushBack, PopFront, PopBack, PeekFront, PeekBack and SetCapacity
operations (blocked or failed operations leaving the state unchanged), the
invariant `capacity == 0 OR size <= capacity` holds, and the capacity is
never negative. -/
theorem C1_capacity_invariant {T : Type} (ops : List (Op T)) :
    0 ≤ (run (NewBlockingDequeue T) ops).capacity ∧
      ((run (NewBlockingDequeue T) ops).capacity = 0 ∨
        ((run (NewBlockingDequeue T) ops).list.length : Int) ≤
          (run (NewBlockingDequeue T) ops).capacity) :=
  capInv_run _ ops ⟨le_refl 0, Or.inl rfl⟩

/-- C2: `SetCapacity n` fails with `InvalidCapacity` iff `n < 0`, fails with
`CapacityBelowSize` iff `n ≥ 0` and `0 < n <` current size; on either failure
the state (capacity, elements, callbacks) is unchanged and no callback or
wake action happens; in every other case (`n = 0` or `n ≥` current size) it
succeeds and the stored capacity becomes `n`. -/
theorem C2_setCapacity_result {T : Type} (d : Dequeue T) (n : Int) :
    ((d.SetCapacity n).error = some CapacityError.invalidCapacity ↔ n < 0) ∧
    ((d.SetCapacity n).error = some CapacityError.capacityBelowSize ↔
      0 ≤ n ∧ 0 < n ∧ n < (d.list.length : Int)) ∧
    ((d.SetCapacity n).error ≠ none →
      (d.SetCapacity n).dequeue = d ∧ (d.SetCapacity n).effects = noEffects) ∧
    ((d.SetCapacity n).error = none ↔ n = 0 ∨ (d.list.length : Int) ≤ n) ∧
    ((d.SetCapacity n).error = none → (d.SetCapacity n).dequeue.capacity = n) := by
  unfold Dequeue.SetCapacity
  split_ifs with h1 h2
  · refine ⟨by simp [h1], by simp; omega, fun _ => ⟨rfl, rfl⟩, by simp; omega, by simp⟩
  · refine ⟨by simp; omega, by simp; omega, fun _ => ⟨rfl, rfl⟩, by simp; omega, by simp⟩
  · refine ⟨by simp; omega, by simp; omega, fun hne => absurd rfl hne, by simp; omega,
      fun _ => rfl⟩

/-- Witness for C2, mirroring the spec's shrink-rejection scenario: with 3
elements present, `SetCapacity 2` returns `CapacityBelowSize` leaving the
state unchanged, `SetCapacity (-1)` returns `InvalidCapacity`, and
`SetCapacity 3` succeeds. -/
theorem C2_setCapacity_result_witness :
    ((⟨[1, 2, 3], 0, false, false⟩ : Dequeue Nat).SetCapacity 2).dequeue =
      ⟨[1, 2, 3], 0, false, false⟩ ∧
    ((⟨[1, 2, 3], 0, false, false⟩ : Dequeue Nat).SetCapacity 2).error =
      some CapacityError.capacityBelowSize ∧
    ((⟨[1, 2, 3], 0, false, false⟩ : Dequeue Nat).SetCapacity (-1)).error =
      some CapacityError.invalidCapacity ∧
    ((⟨[1, 2, 3], 0, false, false⟩ : Dequeue Nat).SetCapacity 3).error = none :=
  ⟨((C2_setCapacity_result (⟨[1, 2, 3], 0, false, false⟩ : Dequeue Nat) 2).2.2.1
      (by decide)).1,
   (C2_setCapacity_result (⟨[1, 2, 3], 0, false, false⟩ : Dequeue Nat) 2).2.1.mpr
      (by decide),
   (C2_setCapacity_result (⟨[1, 2, 3], 0, false, false⟩ : Dequeue Nat) (-1)).1.mpr
      (by decide),
   (C2_setCapacity_result (⟨[1, 2, 3], 0, false, false⟩ : Dequeue Nat) 3).2.2.2.1.mpr
      (by decide)⟩

/-- C10: a successful `SetCapacity` leaves the element sequence and the
callback registrations unchanged and invokes neither `onFull` nor `onEmpty`,
even when the new capacity equals the current positive size. -/
theorem C10_setCapacity_frame {T : Type} (d : Dequeue T) (n : Int)
    (h : (d.SetCapacity n).error = none) :
    (d.SetCapacity n).dequeue.list = d.list ∧
    (d.SetCapacity n).dequeue.onFull = d.onFull ∧
    (d.SetCapacity n).dequeue.onEmpty = d.onEmpty ∧
    (d.SetCapacity n).effects.onFullCalls = 0 ∧
    (d.SetCapacity n).effects.onEmptyCalls = 0 := by
  unfold Dequeue.SetCapacity at h ⊢
  by_cases h1 : n < 0
  · simp [h1] at h
  · by_cases h2 : 0 < n ∧ n < (d.list.length : Int)
    · simp [h1, h2] at h
    · simp [h1, h2]

/-- Witness for C10 at the boundary input the claim singles out: two elements
present and `SetCapacity 2`, so the dequeue becomes full at that moment; the
elements and callback registrations survive and no callback fires. -/
theorem C10_setCapacity_frame_witness :
    ((⟨[1, 2], 5, true, true⟩ : Dequeue Nat).SetCapacity 2).dequeue.list = [1, 2] ∧
    ((⟨[1, 2], 5, true, true⟩ : Dequeue Nat).SetCapacity 2).effects.onFullCalls = 0 ∧
    ((⟨[1, 2], 5, true, true⟩ : Dequeue Nat).SetCapacity 2).effects.onEmptyCalls = 0 :=
  ⟨(C10_setCapacity_frame (⟨[1, 2], 5, true, true⟩ : Dequeue Nat) 2 (by decide)).1,
   (C10_setCapacity_frame (⟨[1, 2], 5, true, true⟩ : Dequeue Nat) 2 (by decide)).2.2.2.1,
   (C10_setCapacity_frame (⟨[1, 2], 5, true, true⟩ : Dequeue Nat) 2 (by decide)).2.2.2.2⟩

theorem pushBack_unbounded {T : Type} {d : Dequeue T} (h : d.capacity = 0) (x : T) :
    applyOp d (Op.pushBack x) = { d with list := d.list ++ [x] } := by
  simp [applyOp, Dequeue.PushBack, Dequeue.isFullRaw, h]

theorem pushFront_unbounded {T : Type} {d : Dequeue T} (h : d.capacity = 0) (x : T) :
    applyOp d (Op.pushFront x) = { d with list := x :: d.list } := by
  simp [applyOp, Dequeue.PushFront, Dequeue.isFullRaw, h]

theorem pushAllBack_unbounded {T : Type} (xs : List T) :
    ∀ d : Dequeue T, d.capacity = 0 →
      pushAllBack d xs = { d with list := d.list ++ xs } := by
  induction xs with
  | nil =>
    intro d h
    simp [pushAllBack, run]
  | cons x rest ih =>
    intro d h
    simp only [pushAllBack, run, List.map_cons, List.foldl_cons]
    rw [show List.foldl applyOp (applyOp d (Op.pushBack x)) (rest.map Op.pushBack) =
        pushAllBack (applyOp d (Op.pushBack x)) rest from rfl,
      pushBack_unbounded h, ih { d with list := d.list ++ [x] } (by simpa using h)]
    simp

theorem pushAllFront_unbounded {T : Type} (xs : List T) :
    ∀ d : Dequeue T, d.capacity = 0 →
      pushAllFront d xs = { d with list := xs.reverse ++ d.list } := by
  induction xs with
  | nil =>
    intro d h
    simp [pushAllFront, run]
  | cons x rest ih =>
    intro d h
    simp only [pushAllFront, run, List.map_cons, List.foldl_cons]
    rw [show List.foldl applyOp (applyOp d (Op.pushFront x)) (rest.map Op.pushFront) =
        pushAllFront (applyOp d (Op.pushFront x)) rest from rfl,
      pushFront_unbounded h, ih { d with list := x :: d.list } (by simpa using h)]
    simp

theorem popAllFront_full {T : Type} :
    ∀ (n : Nat) (d : Dequeue T), d.list.length = n → popAllFront d n = d.list := by
  intro n
  induction n with
  | zero =>
    intro d h
    rw [popAllFront, (List.length_eq_zero.mp h)]
  | succ k ih =>
    intro d h
    match hl : d.list with
    | [] => rw [hl] at h; simp at h
    | x :: rest =>
      rw [hl] at h
      simp only [List.length_cons, Nat.succ.injEq] at h
      simp only [popAllFront, Dequeue.PopFront, hl]
      rw [ih { d with list := rest } h]

/-- C3: pushing `a` then `b` with `PushBack` on a fresh dequeue and then
performing two `PopFront` calls returns `a` then `b`; in general, pushing a
list `xs` to the back of a fresh dequeue leaves the elements in push order
and popping them all from the front returns `xs` (FIFO), and every
non-blocking `PushBack` places its element behind all older elements. -/
theorem C3_pushBack_popFront_fifo {T : Type} (a b : T) (xs : List T) :
    (∃ d1 e1 d2 e2 d3 e3 d4 e4,
      (NewBlockingDequeue T).PushBack a = some (d1, e1) ∧
      d1.PushBack b = some (d2, e2) ∧
      d2.PopFront = some (a, d3, e3) ∧
      d3.PopFront = some (b, d4, e4)) ∧
    (pushAllBack (NewBlockingDequeue T) xs).list = xs ∧
    popAllFront (pushAllBack (NewBlockingDequeue T) xs) xs.length = xs ∧
    (∀ (d d1 : Dequeue T) (x : T) (e : Effects),
      d.PushBack x = some (d1, e) → d1.list = d.list ++ [x]) := by
  have hall : pushAllBack (NewBlockingDequeue T) xs =
      { NewBlockingDequeue T with list := xs } := by
    rw [pushAllBack_unbounded xs (NewBlockingDequeue T) rfl]
    simp [NewBlockingDequeue]
  refine ⟨⟨_, _, _, _, _, _, _, _, rfl, rfl, rfl, rfl⟩, by rw [hall], ?_, ?_⟩
  · rw [hall]
    exact popAllFront_full xs.length { NewBlockingDequeue T with list := xs } rfl
  · intro d d1 x e h
    by_cases hf : d.isFullRaw = true
    · simp [Dequeue.PushBack, hf] at h
    · rw [Bool.not_eq_true] at hf
      simp only [Dequeue.PushBack, hf, Bool.false_eq_true, if_false, Option.some.injEq,
        Prod.mk.injEq] at h
      rw [← h.1]

/-- Witness for C3: the general conjunct applied at a concrete push. -/
theorem C3_pushBack_popFront_fifo_witness :
    (⟨[5, 6], 0, false, false⟩ : Dequeue Nat).list = [5] ++ [6] :=
  (C3_pushBack_popFront_fifo 0 0 ([] : List Nat)).2.2.2
    ⟨[5], 0, false, false⟩ ⟨[5, 6], 0, false, false⟩ 6
    ⟨0, 0, [Wake.signal CondVar.itemAdded]⟩ (by decide)

/-- C4: pushing `a` then `b` with `PushFront` on a fresh dequeue and then
performing two `PopFront` calls returns `b` then `a`; in general, pushing a
list `xs` to the front of a fresh dequeue leaves the elements in reverse push
order and popping them all from the front returns them most-recent first
(LIFO), and every non-blocking `PushFront` places its element ahead of all
older elements. -/
theorem C4_pushFront_popFront_lifo {T : Type} (a b : T) (xs : List T) :
    (∃ d1 e1 d2 e2 d3 e3 d4 e4,
      (NewBlockingDequeue T).PushFront a = some (d1, e1) ∧
      d1.PushFront b = some (d2, e2) ∧
      d2.PopFront = some (b, d3, e3) ∧
      d3.PopFront = some (a, d4, e4)) ∧
    (pushAllFront (NewBlockingDequeue T) xs).list = xs.reverse ∧
    popAllFront (pushAllFront (NewBlockingDequeue T) xs) xs.length = xs.reverse ∧
    (∀ (d d1 : Dequeue T) (x : T) (e : Effects),
      d.PushFront x = some (d1, e) → d1.list = x :: d.list) := by
  have hall : pushAllFront (NewBlockingDequeue T) xs =
      { NewBlockingDequeue T with list := xs.reverse } := by
    rw [pushAllFront_unbounded xs (NewBlockingDequeue T) rfl]
    simp [NewBlockingDequeue]
  refine ⟨⟨_, _, _, _, _, _, _, _, rfl, rfl, rfl, rfl⟩, by rw [hall], ?_, ?_⟩
  · rw [hall]
    have := popAllFront_full xs.reverse.length
      { NewBlockingDequeue T with list := xs.reverse } rfl
    simpa using this
  · intro d d1 x e h
    by_cases hf : d.isFullRaw = true
    · simp [Dequeue.PushFront, hf] at h
    · rw [Bool.not_eq_true] at hf
      simp only [Dequeue.PushFront, hf, Bool.false_eq_true, if_false, Option.some.injEq,
        Prod.mk.injEq] at h
      rw [← h.1]

/-- Witness for C4: the general conjunct applied at a concrete push. -/
theorem C4_pushFront_popFront_lifo_witness :
    (⟨[6, 5], 0, false, false⟩ : Dequeue Nat).list = 6 :: [5] :=
  (C4_pushFront_popFront_lifo 0 0 ([] : List Nat)).2.2.2
    ⟨[5], 0, false, false⟩ ⟨[6, 5], 0, false, false⟩ 6
    ⟨0, 0, [Wake.signal CondVar.itemAdded]⟩ (by decide)

/-- C5: with the callbacks registered, a completed push invokes `OnFull`
exactly once when it makes the size reach a positive capacity and never when
it leaves room; a completed pop invokes `OnEmpty` exactly once when it makes
the size reach zero and never when elements remain; and a push on an
already-full dequeue or a pop on an already-empty dequeue blocks instead, so
neither callback fires for a state that was already at its boundary. -/
theorem C5_callback_firing {T : Type} (d : Dequeue T) (x : T) :
    (∀ d1 e, d.onFull = true → d.PushBack x = some (d1, e) →
      e.onFullCalls =
        if 0 < d.capacity ∧ (d1.list.length : Int) = d.capacity then 1 else 0) ∧
    (∀ d1 e, d.onFull = true → d.PushFront x = some (d1, e) →
      e.onFullCalls =
        if 0 < d.capacity ∧ (d1.list.length : Int) = d.capacity then 1 else 0) ∧
    (∀ v d1 e, d.onEmpty = true → d.PopFront = some (v, d1, e) →
      e.onEmptyCalls = if d1.list.length = 0 then 1 else 0) ∧
    (∀ v d1 e, d.onEmpty = true → d.PopBack = some (v, d1, e) →
      e.onEmptyCalls = if d1.list.length = 0 then 1 else 0) ∧
    (d.isFullRaw = true → d.PushBack x = none ∧ d.PushFront x = none) ∧
    (d.isEmptyRaw = true → d.PopFront = none ∧ d.PopBack = none) := by
  refine ⟨?_, ?_, ?_, ?_, ?_, ?_⟩
  · intro d1 e hreg h
    by_cases hf : d.isFullRaw = true
    · simp [Dequeue.PushBack, hf] at h
    · rw [Bool.not_eq_true] at hf
      simp only [Dequeue.PushBack, hf, Bool.false_eq_true, if_false, Option.some.injEq,
        Prod.mk.injEq] at h
      rw [← h.2, ← h.1]
      simp [Dequeue.isFullRaw, hreg]
  · intro d1 e hreg h
    by_cases hf : d.isFullRaw = true
    · simp [Dequeue.PushFront, hf] at h
    · rw [Bool.not_eq_true] at hf
      simp only [Dequeue.PushFront, hf, Bool.false_eq_true, if_false, Option.some.injEq,
        Prod.mk.injEq] at h
      rw [← h.2, ← h.1]
      simp [Dequeue.isFullRaw, hreg]
  · intro v d1 e hreg h
    match hl : d.list with
    | [] => simp [Dequeue.PopFront, hl] at h
    | y :: rest =>
      simp only [Dequeue.PopFront, hl, Option.some.injEq, Prod.mk.injEq] at h
      rw [← h.2.2, ← h.2.1]
      by_cases hz : rest.length = 0 <;> simp [Dequeue.isEmptyRaw, hreg, hz]
  · intro v d1 e hreg h
    match hl : d.list.getLast? with
    | none => simp [Dequeue.PopBack, hl] at h
    | some y =>
      simp only [Dequeue.PopBack, hl, Option.some.injEq, Prod.mk.injEq] at h
      rw [← h.2.2, ← h.2.1]
      by_cases hz : d.list.dropLast.length = 0 <;> simp [Dequeue.isEmptyRaw, hreg, hz]
  · intro hf
    constructor
    · simp [Dequeue.PushBack, hf]
    · simp [Dequeue.PushFront, hf]
  · intro he
    have hl : d.list = [] := by
      simpa [Dequeue.isEmptyRaw, List.length_eq_zero] using he
    constructor
    · simp [Dequeue.PopFront, hl]
    · simp [Dequeue.PopBack, hl]

/-- Witness for C5: a push that fills a capacity-2 dequeue with `OnFull`
registered reports exactly one `OnFull` invocation. -/
theorem C5_callback_firing_witness :
    ((⟨[1], 2, true, true⟩ : Dequeue Nat).PushBack 4 =
      some (⟨[1, 4], 2, true, true⟩, ⟨1, 0, [Wake.signal CondVar.itemAdded]⟩)) ∧
    (⟨1, 0, [Wake.signal CondVar.itemAdded]⟩ : Effects).onFullCalls = 1 :=
  ⟨by decide,
   Eq.trans
     ((C5_callback_firing (⟨[1], 2, true, true⟩ : Dequeue Nat) 4).1
       ⟨[1, 4], 2, true, true⟩ ⟨1, 0, [Wake.signal CondVar.itemAdded]⟩
       (by decide) (by decide))
     (by decide)⟩

/-- C6: on a non-empty dequeue, `PeekFront` (resp. `PeekBack`) returns the
front (resp. back) element, leaves the element sequence and the size
unchanged, performs no callback invocation and no wake action, and a second
peek at the same end with no intervening mutation returns the same value. -/
theorem C6_peek_frame {T : Type} (d : Dequeue T) :
    (∀ v d1 e, d.PeekFront = some (v, d1, e) →
      d1 = d ∧ e = noEffects ∧ d.list.head? = some v ∧ d1.Size = d.Size ∧
        d1.PeekFront = some (v, d, noEffects)) ∧
    (∀ v d1 e, d.PeekBack = some (v, d1, e) →
      d1 = d ∧ e = noEffects ∧ d.list.getLast? = some v ∧ d1.Size = d.Size ∧
        d1.PeekBack = some (v, d, noEffects)) ∧
    (d.list ≠ [] →
      (∃ v, d.PeekFront = some (v, d, noEffects)) ∧
      (∃ v, d.PeekBack = some (v, d, noEffects))) := by
  refine ⟨?_, ?_, ?_⟩
  · intro v d1 e h
    match hl : d.list with
    | [] => simp [Dequeue.PeekFront, hl] at h
    | y :: rest =>
      simp only [Dequeue.PeekFront, hl, Option.some.injEq, Prod.mk.injEq] at h
      obtain ⟨hv, hd1, he⟩ := h
      subst hv
      refine ⟨hd1.symm, he.symm, rfl, by rw [hd1], ?_⟩
      rw [← hd1]
      simp [Dequeue.PeekFront, hl]
  · intro v d1 e h
    match hl : d.list.getLast? with
    | none => simp [Dequeue.PeekBack, hl] at h
    | some y =>
      simp only [Dequeue.PeekBack, hl, Option.some.injEq, Prod.mk.injEq] at h
      obtain ⟨hv, hd1, he⟩ := h
      subst hv
      refine ⟨hd1.symm, he.symm, rfl, by rw [hd1], ?_⟩
      rw [← hd1]
      simp [Dequeue.PeekBack, hl]
  · intro hne
    constructor
    · match hl : d.list with
      | [] => exact absurd hl hne
      | y :: rest => exact ⟨y, by simp [Dequeue.PeekFront, hl]⟩
    · match hl : d.list.getLast? with
      | none =>
        rw [List.getLast?_eq_none_iff] at hl
        exact absurd hl hne
      | some y => exact ⟨y, by simp [Dequeue.PeekBack, hl]⟩

/-- Witness for C6: peeking a concrete two-element dequeue front and back. -/
theorem C6_peek_frame_witness :
    ((⟨[3, 4], 0, true, true⟩ : Dequeue Nat) = ⟨[3, 4], 0, true, true⟩) ∧
    (⟨[3, 4], 0, true, true⟩ : Dequeue Nat).list.head? = some 3 :=
  ⟨((C6_peek_frame (⟨[3, 4], 0, true, true⟩ : Dequeue Nat)).1 3
      ⟨[3, 4], 0, true, true⟩ noEffects (by decide)).1,
   ((C6_peek_frame (⟨[3, 4], 0, true, true⟩ : Dequeue Nat)).1 3
      ⟨[3, 4], 0, true, true⟩ noEffects (by decide)).2.2.1⟩

/-- C7: on a dequeue holding at least one element, the value `PeekFront`
returns equals the value `PopFront` returns in the same state, and the value
`PeekBack` returns equals the value `PopBack` returns in the same state. -/
theorem C7_peek_agrees_with_pop {T : Type} (d : Dequeue T) (hne : d.list ≠ []) :
    (∃ v d1 e d2 e2, d.PopFront = some (v, d1, e) ∧
      d.PeekFront = some (v, d2, e2)) ∧
    (∃ v d1 e d2 e2, d.PopBack = some (v, d1, e) ∧
      d.PeekBack = some (v, d2, e2)) := by
  constructor
  · match hl : d.list with
    | [] => exact absurd hl hne
    | y :: rest =>
      have hpeek : d.PeekFront = some (y, d, noEffects) := by
        simp [Dequeue.PeekFront, hl]
      have hpop : d.PopFront = some (y, { d with list := rest },
          ⟨0, if ({ d with list := rest } : Dequeue T).isEmptyRaw &&
                ({ d with list := rest } : Dequeue T).onEmpty then 1 else 0,
            [Wake.signal CondVar.itemRemoved]⟩) := by
        simp [Dequeue.PopFront, hl]
      exact ⟨y, _, _, _, _, hpop, hpeek⟩
  · match hl : d.list.getLast? with
    | none =>
      rw [List.getLast?_eq_none_iff] at hl
      exact absurd hl hne
    | some y =>
      have hpeek : d.PeekBack = some (y, d, noEffects) := by
        simp [Dequeue.PeekBack, hl]
      have hpop : d.PopBack = some (y, { d with list := d.list.dropLast },
          ⟨0, if ({ d with list := d.list.dropLast } : Dequeue T).isEmptyRaw &&
                ({ d with list := d.list.dropLast } : Dequeue T).onEmpty then 1 else 0,
            [Wake.signal CondVar.itemRemoved]⟩) := by
        simp [Dequeue.PopBack, hl]
      exact ⟨y, _, _, _, _, hpop, hpeek⟩

/-- Witness for C7 on a concrete two-element dequeue. -/
theorem C7_peek_agrees_with_pop_witness :
    ∃ v d1 e d2 e2, (⟨[3, 4], 0, false, false⟩ : Dequeue Nat).PopFront = some (v, d1, e) ∧
      (⟨[3, 4], 0, false, false⟩ : Dequeue Nat).PeekFront = some (v, d2, e2) :=
  (C7_peek_agrees_with_pop (⟨[3, 4], 0, false, false⟩ : Dequeue Nat) (by decide)).1

/-- C8: every successful `SetCapacity` whose new capacity is `0` or larger
than the old capacity performs a broadcast (not a single wake-one signal) on
the condition variable that blocked pushes wait on, so a push blocked on
fullness is released by the capacity increase without an intervening pop. -/
theorem C8_setCapacity_broadcast {T : Type} (d : Dequeue T) (n : Int)
    (hsucc : (d.SetCapacity n).error = none) (_hwiden : n = 0 ∨ d.capacity < n) :
    (d.SetCapacity n).effects.wakes = [Wake.broadcast pushWaitCond] := by
  unfold Dequeue.SetCapacity at hsucc ⊢
  by_cases h1 : n < 0
  · simp [h1] at hsucc
  · by_cases h2 : 0 < n ∧ n < (d.list.length : Int)
    · simp [h1, h2] at hsucc
    · simp [h1, h2, pushWaitCond]

/-- Witness for C8, mirroring the spec's scenario: capacity 1, one element
present, capacity increased to 2 — a broadcast on the push wait condition. -/
theorem C8_setCapacity_broadcast_witness :
    ((⟨[1], 1, false, false⟩ : Dequeue Nat).SetCapacity 2).effects.wakes =
      [Wake.broadcast pushWaitCond] :=
  C8_setCapacity_broadcast (⟨[1], 1, false, false⟩ : Dequeue Nat) 2
    (by decide) (Or.inr (by decide))

/-- C9 counterexample: the claim fails at the observer `Capacity()`, whose Go
body is `return d.capacity` with no lock acquisition at all, while the
mutating operations' synchronization domain is the two condition-variable
locks. -/
theorem C9_counterexample :
    capacityLocks = ([] : List CondVar) ∧
    acquireWriteLocksLocks ≠ ([] : List CondVar) ∧
    capacityLocks ≠ acquireWriteLocksLocks := by decide

/-- C9 (amended): `Size()`, `IsEmpty()` and `IsFull()` each acquire both
condition-variable locks — the same synchronization domain the mutating
operations use via `acquireWriteLocks` — before reading size or capacity,
but `Capacity()` acquires no lock, so its read of the capacity is not under
that mutual exclusion. -/
theorem C9_observer_locks :
    sizeLocks = acquireWriteLocksLocks ∧
    isEmptyLocks = acquireWriteLocksLocks ∧
    isFullLocks = acquireWriteLocksLocks ∧
    setCapacityLocks = acquireWriteLocksLocks ∧
    capacityLocks = [] := by decide
